import Mathlib

set_option maxRecDepth 8000

/-!
Verification development for the Canvas file-index downloader and its
status-check API server.

The Python sources are shallowly embedded as executable Lean definitions:
  * `sanitizeFilename`     — `sanitize_filename` (file_index_downloader.py:65)
  * `fetchAllPages`        — `fetch_all_pages` (file_index_downloader.py:79)
  * `downloadFile`         — `download_file` (file_index_downloader.py:114)
  * `canUploadToVectorStore` — `can_upload_to_vector_store` (file_index_downloader.py:300)
  * the module/files-area walk of `process_course` (file_index_downloader.py:368)
  * the vector-store upload phase and mapping merge of `main`
    (file_index_downloader.py:736-852)
  * the reconciliation set computation of `check_index_status`
    (api_server.py:745-763)
Machine strings are `String`/`List Char`, byte counts are `Nat`, the local
file system is an association list from relative path to byte size, and the
network is an explicit oracle from URL to response.
-/

namespace Canvas

/-! ## sanitize_filename (file_index_downloader.py:65-76) -/

/-- The characters replaced by `_`: Python `illegal_chars = '<>:"/\\|?*'`. -/
def illegalChar (c : Char) : Bool :=
  ['<', '>', ':', '\"', '/', '\\', '|', '?', '*'].contains c

/-- The characters stripped from both ends: Python `name.strip('. ')`. -/
def stripChar (c : Char) : Bool := c = '.' || c = ' '

/-- Remove the maximal run of `p`-characters at the end of the list
(the right half of Python's `str.strip`). -/
def dropTrailing (p : Char → Bool) : List Char → List Char
  | [] => []
  | c :: cs =>
    let rest := dropTrailing p cs
    if rest.isEmpty && p c then [] else c :: rest

/-- Step 1 of `sanitize_filename`: every illegal character becomes `_`. -/
def sanitizeMapped (s : List Char) : List Char :=
  s.map (fun c => if illegalChar c then '_' else c)

/-- Step 2 of `sanitize_filename`: `name.strip('. ')`. -/
def sanitizeStripped (s : List Char) : List Char :=
  dropTrailing stripChar ((sanitizeMapped s).dropWhile stripChar)

/-- Step 3 of `sanitize_filename`: truncate to 200 characters. -/
def sanitizeTruncated (s : List Char) : List Char :=
  if (sanitizeStripped s).length > 200 then (sanitizeStripped s).take 200
  else sanitizeStripped s

/-- Step 4 of `sanitize_filename`: fall back to `"unnamed"` if empty. -/
def sanitizeList (s : List Char) : List Char :=
  if (sanitizeTruncated s).isEmpty then "unnamed".data else sanitizeTruncated s

/-- `sanitize_filename` (file_index_downloader.py:65-76). -/
def sanitizeFilename (s : String) : String := ⟨sanitizeList s.data⟩

lemma dropTrailing_subset (p : Char → Bool) (l : List Char) :
    dropTrailing p l ⊆ l := by
  induction l with
  | nil => simp [dropTrailing]
  | cons c cs ih =>
    simp only [dropTrailing]
    split
    · simp
    · exact List.cons_subset_cons c ih

lemma dropTrailing_head? (p : Char → Bool) (c : Char) (cs : List Char)
    (h : dropTrailing p (c :: cs) ≠ []) :
    (dropTrailing p (c :: cs)).head? = some c := by
  simp only [dropTrailing] at h ⊢
  split
  · simp_all
  · rfl

lemma getLast?_cons_of_ne {α : Type} (c : α) (l : List α) (h : l ≠ []) :
    (c :: l).getLast? = l.getLast? := by
  cases l with
  | nil => exact absurd rfl h
  | cons d ds => simp [List.getLast?_cons_cons]

lemma dropTrailing_getLast? (p : Char → Bool) (l : List Char)
    (h : dropTrailing p l ≠ []) :
    ∀ c, (dropTrailing p l).getLast? = some c → p c = false := by
  induction l with
  | nil => simp [dropTrailing] at h
  | cons c cs ih =>
    intro d hd
    simp only [dropTrailing] at h hd
    by_cases hrest : dropTrailing p cs = []
    · rw [hrest] at h hd
      simp only [List.isEmpty_nil, Bool.true_and] at h hd
      by_cases hp : p c
      · rw [if_pos hp] at h
        exact absurd rfl h
      · rw [if_neg (by simpa using hp)] at hd
        simp only [List.getLast?_singleton, Option.some.injEq] at hd
        subst hd
        simpa using hp
    · have hne : (dropTrailing p cs).isEmpty = false := by
        simpa [List.isEmpty_iff] using hrest
      rw [hne] at h hd
      simp only [Bool.false_and] at h hd
      rw [if_neg (by simp)] at hd
      rw [getLast?_cons_of_ne _ _ hrest] at hd
      exact ih hrest d hd

lemma dropWhile_head?_not (p : Char → Bool) (l : List Char) :
    ∀ c, (l.dropWhile p).head? = some c → p c = false := by
  induction l with
  | nil => simp
  | cons c cs ih =>
    intro d hd
    rw [List.dropWhile_cons] at hd
    split at hd
    · exact ih d hd
    · simp only [List.head?_cons, Option.some.injEq] at hd
      subst hd
      simp_all

lemma take_head? {α : Type} (n : ℕ) (l : List α) (hn : 0 < n) :
    (l.take n).head? = l.head? := by
  cases l with
  | nil => simp
  | cons c cs =>
    cases n with
    | zero => omega
    | succ m => simp [List.take_succ_cons]

lemma sanitizeTruncated_subset (s : List Char) :
    sanitizeTruncated s ⊆ sanitizeStripped s := by
  unfold sanitizeTruncated
  split
  · exact List.take_subset _ _
  · exact fun c hc => hc

lemma sanitizeList_ne_nil (s : List Char) : sanitizeList s ≠ [] := by
  unfold sanitizeList
  split
  · decide
  · rename_i h
    simpa [List.isEmpty_iff] using h

lemma sanitizeList_length_le (s : List Char) : (sanitizeList s).length ≤ 200 := by
  unfold sanitizeList
  split
  · decide
  · unfold sanitizeTruncated
    split
    · exact List.length_take_le 200 _
    · omega

lemma sanitizeList_no_illegal (s : List Char) :
    ∀ c ∈ sanitizeList s, illegalChar c = false := by
  intro c hc
  unfold sanitizeList at hc
  split at hc
  · have hc7 : c ∈ ['u','n','n','a','m','e','d'] := by simpa using hc
    fin_cases hc7 <;> decide
  · have hmem : c ∈ sanitizeStripped s := sanitizeTruncated_subset s hc
    have hmem2 : c ∈ (sanitizeMapped s).dropWhile stripChar :=
      dropTrailing_subset _ _ hmem
    have hmem3 : c ∈ sanitizeMapped s := List.dropWhile_subset _ hmem2
    unfold sanitizeMapped at hmem3
    obtain ⟨d, _, hd⟩ := List.mem_map.mp hmem3
    by_cases hil : illegalChar d
    · simp [hil] at hd
      subst hd
      decide
    · simp [hil] at hd
      subst hd
      simpa using hil

lemma sanitizeList_head_ok (s : List Char) :
    ∀ c, (sanitizeList s).head? = some c → stripChar c = false := by
  intro c hc
  unfold sanitizeList at hc
  split at hc
  · have hcu : 'u' = c := by
      rw [show ("unnamed".data : List Char) = ['u','n','n','a','m','e','d'] from rfl] at hc
      simpa using hc
    subst hcu
    decide
  · rename_i hne
    have hhead : (sanitizeStripped s).head? = some c := by
      unfold sanitizeTruncated at hc
      split at hc
      · rwa [take_head? 200 _ (by omega)] at hc
      · exact hc
    have hstr : sanitizeStripped s ≠ [] := by
      intro h0
      rw [h0] at hhead
      simp at hhead
    unfold sanitizeStripped at hhead hstr
    cases hdw : (sanitizeMapped s).dropWhile stripChar with
    | nil => rw [hdw] at hstr; simp [dropTrailing] at hstr
    | cons d ds =>
      rw [hdw] at hhead hstr
      rw [dropTrailing_head? _ _ _ hstr] at hhead
      have hcd : d = c := by simpa using hhead
      subst hcd
      apply dropWhile_head?_not stripChar (sanitizeMapped s)
      rw [hdw]
      rfl

lemma sanitizeList_getLast_ok_of_short (s : List Char)
    (hlen : (sanitizeStripped s).length ≤ 200) :
    ∀ c, (sanitizeList s).getLast? = some c → stripChar c = false := by
  intro c hc
  unfold sanitizeList at hc
  have htr : sanitizeTruncated s = sanitizeStripped s := by
    unfold sanitizeTruncated
    rw [if_neg (by omega)]
  rw [htr] at hc
  split at hc
  · have hcd : 'd' = c := by
      rw [show ("unnamed".data : List Char) = ['u','n','n','a','m','e','d'] from rfl] at hc
      simpa using hc
    subst hcd
    decide
  · rename_i hne
    have hstr : sanitizeStripped s ≠ [] := by
      intro h0
      rw [h0] at hne
      simp at hne
    exact dropTrailing_getLast? stripChar _ hstr c hc

/-! ## fetch_all_pages (file_index_downloader.py:79-111)

A run of the fetcher is modelled by the transcript of page responses the
server produces, in the order the `next`-links chain them: each `ok`
response carries its JSON payload and whether a `rel="next"` link is
present; `httpErr` is a non-200 status; `exn` is a raised transport
exception. -/

inductive PageResp (α : Type) where
  | ok (data : List α) (hasNext : Bool)
  | httpErr (status : Nat)
  | exn (msg : String)
deriving DecidableEq

/-- `fetch_all_pages`: accumulate page payloads while following `next`
links; a non-200 status or an exception breaks the loop, returning what was
accumulated so far. -/
def fetchAllPages {α : Type} : List (PageResp α) → List α
  | [] => []
  | .ok data hasNext :: rest => data ++ (if hasNext then fetchAllPages rest else [])
  | .httpErr _ :: _ => []
  | .exn _ :: _ => []

lemma fetchAllPages_ok_chain {α : Type} (ds : List (List α)) (rest : List (PageResp α)) :
    fetchAllPages (ds.map (fun d => PageResp.ok d true) ++ rest)
      = ds.flatten ++ fetchAllPages rest := by
  induction ds with
  | nil => simp
  | cons d ds ih => simp [fetchAllPages, ih]

/-! ## The local file mirror

The on-disk mirror below `file_index/` is an association list from relative
path (always with `/` separators) to byte size; paths are unique. -/

abbrev FS := List (String × Nat)

/-- `Path.exists` + `stat().st_size`: the byte size of the file at `p`,
if it exists. -/
def lookupFS (fs : FS) (p : String) : Option Nat :=
  (fs.find? (fun e => e.1 == p)).map (fun e => e.2)

/-- Writing a file: replace whatever was at `p` by a file of `v` bytes. -/
def setFS (p : String) (v : Nat) (fs : FS) : FS :=
  (p, v) :: fs.filter (fun e => e.1 != p)

/-! ## Reconciliation sets (api_server.py:757-763) -/

/-- `missing_files = (canvas_file_names - indexed_file_names) - inaccessible_files_set`
(api_server.py:758-761). -/
def missingFiles (canvas indexed inaccessible : Finset String) : Finset String :=
  (canvas \ indexed) \ inaccessible

/-- `extra_files = indexed_file_names - canvas_file_names` (api_server.py:763). -/
def extraFiles (canvas indexed : Finset String) : Finset String :=
  indexed \ canvas

/-! ## Association-list lemmas for the mirror -/

def keysFS (fs : FS) : List String := fs.map Prod.fst

lemma find?_filter_of_imp {α : Type} (l : List α) (pr q : α → Bool)
    (h : ∀ x, pr x = true → q x = true) :
    (l.filter q).find? pr = l.find? pr := by
  induction l with
  | nil => rfl
  | cons x xs ih =>
    by_cases hx : q x = true
    · rw [List.filter_cons_of_pos hx]
      by_cases hpx : pr x = true
      · simp [List.find?_cons, hpx]
      · have hpx2 : pr x = false := by simpa using hpx
        simpa [List.find?_cons, hpx2] using ih
    · have hx2 : q x = false := by simpa using hx
      have hpx2 : pr x = false := by
        by_contra hc
        rw [h x (by simpa using hc)] at hx2
        exact absurd hx2 (by simp)
      rw [List.filter_cons_of_neg (by simp [hx2])]
      simpa [List.find?_cons, hpx2] using ih

lemma lookupFS_setFS (p : String) (v : Nat) (fs : FS) (q : String) :
    lookupFS (setFS p v fs) q = if q = p then some v else lookupFS fs q := by
  unfold lookupFS setFS
  by_cases hq : q = p
  · subst hq
    simp [List.find?_cons]
  · have h1 : (p == q) = false := by
      simp only [beq_eq_false_iff_ne, ne_eq]
      exact fun h2 => hq h2.symm
    simp only [List.find?_cons, h1, if_neg hq]
    congr 1
    exact find?_filter_of_imp fs _ _ (fun x hx => by
      have hxq : x.1 = q := by simpa using hx
      simp [hxq, bne_iff_ne, hq])

lemma keysFS_nodup_setFS (p : String) (v : Nat) (fs : FS)
    (h : (keysFS fs).Nodup) : (keysFS (setFS p v fs)).Nodup := by
  unfold keysFS setFS
  rw [List.map_cons, List.nodup_cons]
  constructor
  · intro hmem
    obtain ⟨e, he, heq⟩ := List.mem_map.mp hmem
    have := List.of_mem_filter he
    simp only [bne_iff_ne, ne_eq, decide_eq_true_eq] at this
    exact this heq
  · exact List.Nodup.sublist (List.Sublist.map Prod.fst (List.filter_sublist fs)) h

lemma setFS_perm (p : String) (v : Nat) (fs : FS)
    (hnodup : (keysFS fs).Nodup) (h : lookupFS fs p = some v) :
    (setFS p v fs).Perm fs := by
  induction fs with
  | nil => simp [lookupFS] at h
  | cons e es ih =>
    rw [keysFS, List.map_cons, List.nodup_cons] at hnodup
    by_cases hep : e.1 = p
    · have hv : e.2 = v := by
        unfold lookupFS at h
        simp [List.find?_cons, hep] at h
        exact h
      have hp_not : ∀ x ∈ es, x.1 ≠ p := by
        intro x hx hxp
        exact hnodup.1 (hep ▸ hxp ▸ List.mem_map_of_mem Prod.fst hx)
      have hfil : es.filter (fun x => x.1 != p) = es :=
        List.filter_eq_self.mpr (fun x hx => by simpa using hp_not x hx)
      have hhead : ((e.1 != p) : Bool) = false := by simp [hep]
      unfold setFS
      rw [List.filter_cons_of_neg (by simp [hhead]), hfil]
      have he : e = (p, v) := by
        obtain ⟨e1, e2⟩ := e
        simp only at hep hv
        rw [hep, hv]
      rw [he]
    · have hef : (e.1 == p) = false := by simpa [beq_eq_false_iff_ne] using hep
      have hlook : lookupFS es p = some v := by
        unfold lookupFS at h ⊢
        simpa [List.find?_cons, hef] using h
      have step1 : setFS p v (e :: es) = (p, v) :: e :: es.filter (fun x => x.1 != p) := by
        unfold setFS
        rw [List.filter_cons_of_pos (by simp [bne_iff_ne, hep])]
      rw [step1]
      exact List.Perm.trans (List.Perm.swap e (p, v) _)
        (List.Perm.cons e (ih hnodup.2 hlook))

/-! ## Upload eligibility (file_index_downloader.py:61-62, 300-313) -/

/-- `SUPPORTED_EXTENSIONS` (file_index_downloader.py:61). -/
def SUPPORTED_EXTENSIONS : List String :=
  [".pdf", ".txt", ".md", ".doc", ".docx", ".ppt", ".pptx", ".xls", ".xlsx", ".json", ".csv"]

/-- `MAX_FILE_SIZE = 512 * 1024 * 1024` (file_index_downloader.py:62). -/
def MAX_FILE_SIZE : Nat := 512 * 1024 * 1024

/-- The final path component (everything after the last `/`). -/
def fileNameOf (p : List Char) : List Char :=
  (p.reverse.takeWhile (fun c => c != '/')).reverse

/-- `PurePath.suffix` of a file name: `name[i:]` for the last dot index `i`
when `0 < i < len(name) - 1`, else the empty string. -/
def suffixOfName (name : List Char) : List Char :=
  if 0 < (name.reverse.takeWhile (fun c => c != '.')).length
      ∧ (name.reverse.takeWhile (fun c => c != '.')).length < name.length - 1 then
    '.' :: (name.reverse.takeWhile (fun c => c != '.')).reverse
  else []

/-- `Path(p).suffix`. -/
def pathSuffix (p : String) : String := ⟨suffixOfName (fileNameOf p.data)⟩

/-- `str.lower()` on a string (the extensions involved are ASCII). -/
def lowerStr (s : String) : String := ⟨s.data.map Char.toLower⟩

/-- `can_upload_to_vector_store` (file_index_downloader.py:300-313):
supported extension (case-insensitive) and size not above the cap. -/
def canUploadToVectorStore (p : String) (size : Nat) : Bool :=
  SUPPORTED_EXTENSIONS.contains (lowerStr (pathSuffix p)) && size ≤ MAX_FILE_SIZE

/-! ## extract_files_from_html (file_index_downloader.py:286-297) -/

/-- The literal `/files/` of the pattern `/files/(\d+)(?:/download)?`. -/
def filesMarker : List Char := ['/', 'f', 'i', 'l', 'e', 's', '/']

/-- Left-to-right scan for `/files/<digits>` occurrences, in order.
Scanning position by position is equivalent to the regex engine's
non-overlapping scan: a second match can never begin strictly inside a
matched `/files/<digits>` span, because the marker starts with `/` followed
by `files/`, which occurs neither inside the marker's tail nor inside a
digit run. -/
def extractIds : List Char → List (List Char)
  | [] => []
  | c :: cs =>
    if filesMarker.isPrefixOf (c :: cs) then
      if (((c :: cs).drop 7).takeWhile Char.isDigit).isEmpty then extractIds cs
      else (((c :: cs).drop 7).takeWhile Char.isDigit) :: extractIds cs
    else extractIds cs

/-- `extract_files_from_html`: the matched ids, deduplicated. -/
def extractFilesFromHtml (html : String) : List String :=
  ((extractIds html.data).map (fun l => (⟨l⟩ : String))).dedup

/-! ## download_file (file_index_downloader.py:114-157) -/

/-- Metadata of a Canvas file object as `download_file` reads it:
`url`, `display_name`, `size`, `id`. -/
structure FileInfo where
  id : String
  displayName : String
  url : Option String
  size : Nat
deriving DecidableEq

/-- What a single HTTP GET of a file URL produces: a status with a body
length, or a raised exception. -/
inductive Response where
  | resp (status : Nat) (contentLen : Nat)
  | exn (msg : String)
deriving DecidableEq

/-- An element of `stats["inaccessible_files"]`
(file_index_downloader.py:146-151). -/
structure InaccRecord where
  course : String
  fileName : String
  fileId : String
  error : String
deriving DecidableEq

/-- An element of `stats["errors"]` (`module` is absent for Files-area
downloads, file_index_downloader.py:549-553). -/
structure ErrRecord where
  course : String
  moduleName : Option String
  file : String
  error : String
deriving DecidableEq

/-- The process-wide `stats` fields the downloader mutates. -/
structure Stats where
  downloaded : Nat
  skipped : Nat
  inaccessible : Nat
  totalSize : Nat
  inaccessibleFiles : List InaccRecord
  errors : List ErrRecord
deriving DecidableEq

/-- The `stats` dict at process start (file_index_downloader.py:42-58). -/
def initStats : Stats := ⟨0, 0, 0, 0, [], []⟩

/-- Result of one `download_file` call: the returned `(success, msg)` pair,
the file system and stats afterwards, and whether a network request was
issued. -/
structure DlResult where
  success : Bool
  msg : String
  fs : FS
  stats : Stats
  requested : Bool
deriving DecidableEq

/-- The body of `download_file`'s `try:` block (file_index_downloader.py:
129-154): issue the GET and dispatch on the status; a raised exception is
an `Except.error`. -/
def requestAndWrite (fi : FileInfo) (path courseName : String) (r : Response)
    (fs : FS) (st : Stats) : Except String (Bool × String × FS × Stats) :=
  match r with
  | .exn m => .error m
  | .resp 200 len =>
    .ok (true, "成功", setFS path len fs,
      { st with downloaded := st.downloaded + 1, totalSize := st.totalSize + fi.size })
  | .resp 403 _ =>
    .ok (false, "403 Forbidden (无权访问)", fs,
      { st with inaccessible := st.inaccessible + 1,
                inaccessibleFiles := st.inaccessibleFiles
                  ++ [⟨courseName, fi.displayName, fi.id, "403 Forbidden"⟩] })
  | .resp s _ => .ok (false, "HTTP " ++ toString s, fs, st)

/-- `download_file` (file_index_downloader.py:114-157): no URL → failure
without a request; existing file of the declared size → skip without a
request; otherwise run the request body, catching any raised exception
into a `(False, str(e))` return. -/
def downloadFile (fi : FileInfo) (path courseName : String) (r : Response)
    (fs : FS) (st : Stats) : DlResult :=
  match fi.url with
  | none => ⟨false, "无下载链接", fs, st, false⟩
  | some _ =>
    if lookupFS fs path = some fi.size then
      ⟨true, "已存在", fs, { st with skipped := st.skipped + 1 }, false⟩
    else
      match requestAndWrite fi path courseName r fs st with
      | .error m => ⟨false, m, fs, st, true⟩
      | .ok (b, m, fs2, st2) => ⟨b, m, fs2, st2, true⟩

/-! ## The course walk (process_course, file_index_downloader.py:368-560)

`process_course` interleaves metadata fetches with downloads; since every
fetch is a pure lookup into the remote state, the walk is embedded as the
list of download/write actions the course loop performs, in source order,
and the download phase is a fold of the per-action step over that list. -/

/-- One download/write performed by `process_course`, tagged with the
context that decides how a failure is recorded. -/
inductive Action where
  | dlFileItem (courseName moduleName fileName path : String) (fi : FileInfo)
  | dlEmbedded (courseName path : String) (fi : FileInfo)
  | dlAttachment (courseName moduleName fileName path : String) (fi : FileInfo)
  | dlFilesArea (courseName fileName path : String) (fi : FileInfo)
  | writeSyn (path : String) (body : String)
  | noFileInfo (courseName moduleName fileLabel : String)
deriving DecidableEq

/-- The target path and file metadata of a download action. -/
def Action.fileOf : Action → Option (String × FileInfo)
  | .dlFileItem _ _ _ p fi => some (p, fi)
  | .dlEmbedded _ p fi => some (p, fi)
  | .dlAttachment _ _ _ p fi => some (p, fi)
  | .dlFilesArea _ _ p fi => some (p, fi)
  | .writeSyn _ _ => none
  | .noFileInfo _ _ _ => none

/-- The network oracle consulted for a file's download URL. -/
def netFor (net : String → Response) (fi : FileInfo) : Response :=
  match fi.url with
  | some u => net u
  | none => .exn ""

/-- One iteration of the download loops of `process_course`: run
`download_file` (or the direct HTML write) and record the outcome the way
the enclosing branch does. -/
def step (net : String → Response) (σ : FS × Stats) (a : Action) : FS × Stats :=
  match a with
  | .dlFileItem c m f _p fi =>
    let r := downloadFile fi _p c (netFor net fi) σ.1 σ.2
    if r.success then (r.fs, r.stats)
    else (r.fs, { r.stats with errors := r.stats.errors ++ [⟨c, some m, f, r.msg⟩] })
  | .dlEmbedded c _p fi =>
    let r := downloadFile fi _p c (netFor net fi) σ.1 σ.2
    (r.fs, r.stats)
  | .dlAttachment c m f _p fi =>
    let r := downloadFile fi _p c (netFor net fi) σ.1 σ.2
    if r.success then (r.fs, r.stats)
    else (r.fs, { r.stats with errors := r.stats.errors
                    ++ [⟨c, some m, f, "附件下载失败: " ++ r.msg⟩] })
  | .dlFilesArea c f _p fi =>
    let r := downloadFile fi _p c (netFor net fi) σ.1 σ.2
    if r.success then (r.fs, r.stats)
    else (r.fs, { r.stats with errors := r.stats.errors ++ [⟨c, none, f, r.msg⟩] })
  | .writeSyn p body =>
    if body = "" then σ
    else (setFS p body.length σ.1, { σ.2 with downloaded := σ.2.downloaded + 1 })
  | .noFileInfo c m lbl =>
    (σ.1, { σ.2 with errors := σ.2.errors
              ++ [⟨c, some m, lbl, "无法获取文件信息（可能无权限）"⟩] })

/-- An assignment's detail payload: description body and attachments. -/
structure Assignment where
  description : String
  attachments : List FileInfo
deriving DecidableEq

/-- A module item, classified by its `type` field. -/
inductive Item where
  | file (contentId : Nat)
  | page (pageUrl : String) (title : String)
  | assignment (contentId : Nat) (title : String)
  | other
deriving DecidableEq

/-- A course module with its (inline or fetched) item list. -/
structure CourseModule where
  name : String
  items : List Item
deriving DecidableEq

/-- A course as returned by the courses endpoint. -/
structure Course where
  id : Nat
  name : String
  courseCode : String
deriving DecidableEq

/-- The remote Canvas state a run reads: courses, their modules, the file
metadata table, page bodies, assignment details, and each course's
top-level files area (`none` models a 403 on that endpoint). -/
structure Remote where
  courses : List Course
  modulesOf : Nat → List CourseModule
  fileTable : String → Option FileInfo
  pageTable : Nat → String → Option String
  assignTable : Nat → Nat → Option Assignment
  courseFiles : Nat → Option (List FileInfo)

/-- The course folder name (file_index_downloader.py:375): the raw course
code is prefixed to the sanitized course name. -/
def courseFolderOf (c : Course) : String :=
  if c.courseCode ≠ "" then c.courseCode ++ "_" ++ sanitizeFilename c.name
  else sanitizeFilename c.name

/-- Downloads of the files embedded in an HTML body
(file_index_downloader.py:460-470 and 515-525). -/
def walkEmbedded (courseName modulePath : String) (ft : String → Option FileInfo)
    (html : String) : List Action :=
  (extractFilesFromHtml html).flatMap (fun fid =>
    match ft fid with
    | none => []
    | some fi =>
      [.dlEmbedded courseName (modulePath ++ "/" ++ sanitizeFilename fi.displayName) fi])

/-- The actions of one module item (file_index_downloader.py:405-525). -/
def walkItem (r : Remote) (courseId : Nat) (courseName modulePath moduleName : String) :
    Item → List Action
  | .file cid =>
    match r.fileTable (toString cid) with
    | none => [.noFileInfo courseName moduleName ("File ID " ++ toString cid)]
    | some fi =>
      [.dlFileItem courseName moduleName (sanitizeFilename fi.displayName)
        (modulePath ++ "/" ++ sanitizeFilename fi.displayName) fi]
  | .page pageUrl title =>
    match r.pageTable courseId pageUrl with
    | none => []
    | some body =>
      .writeSyn (modulePath ++ "/" ++ sanitizeFilename (title ++ ".html")) body
        :: walkEmbedded courseName modulePath r.fileTable body
  | .assignment cid title =>
    match r.assignTable courseId cid with
    | none => []
    | some a =>
      .writeSyn (modulePath ++ "/" ++ sanitizeFilename (title ++ "_description.html"))
          a.description
        :: (a.attachments.map (fun att =>
              Action.dlAttachment courseName moduleName (sanitizeFilename att.displayName)
                (modulePath ++ "/" ++ sanitizeFilename att.displayName) att))
        ++ walkEmbedded courseName modulePath r.fileTable a.description
  | .other => []

/-- The actions of one module (file_index_downloader.py:393-404). -/
def walkModule (r : Remote) (courseId : Nat) (courseName courseFolder : String)
    (m : CourseModule) : List Action :=
  m.items.flatMap
    (walkItem r courseId courseName
      (courseFolder ++ "/Modules/" ++ sanitizeFilename m.name) (sanitizeFilename m.name))

/-- The actions of one course: modules first, then the top-level Files
area; a 403 on the files endpoint drops the files-area work only
(file_index_downloader.py:388-553). -/
def walkCourse (r : Remote) (c : Course) : List Action :=
  ((r.modulesOf c.id).flatMap (walkModule r c.id (sanitizeFilename c.name) (courseFolderOf c)))
  ++ (match r.courseFiles c.id with
      | none => []
      | some fis => fis.map (fun fi =>
          Action.dlFilesArea (sanitizeFilename c.name) (sanitizeFilename fi.displayName)
            (courseFolderOf c ++ "/Files/" ++ sanitizeFilename fi.displayName) fi))

/-- All download/write actions of one run, in execution order. -/
def walkRemote (r : Remote) : List Action := r.courses.flatMap (walkCourse r)

/-- The download phase of `main` (file_index_downloader.py:719-724). -/
def runDownload (net : String → Response) (r : Remote) (fs : FS) (st : Stats) :
    FS × Stats :=
  (walkRemote r).foldl (step net) (fs, st)

/-- The `(path, size)` pair an action writes when the network honours the
declared sizes; `none` for actions that write nothing. -/
def actionEmit : Action → Option (String × Nat)
  | .dlFileItem _ _ _ p fi => if fi.url.isSome then some (p, fi.size) else none
  | .dlEmbedded _ p fi => if fi.url.isSome then some (p, fi.size) else none
  | .dlAttachment _ _ _ p fi => if fi.url.isSome then some (p, fi.size) else none
  | .dlFilesArea _ _ p fi => if fi.url.isSome then some (p, fi.size) else none
  | .writeSyn p body => if body = "" then none else some (p, body.length)
  | .noFileInfo _ _ _ => none

def emitsOf (acts : List Action) : List (String × Nat) := acts.filterMap actionEmit

/-- Distinct writes never target the same path with different sizes. -/
def functionalEmits (l : List (String × Nat)) : Prop :=
  ∀ e1 ∈ l, ∀ e2 ∈ l, e1.1 = e2.1 → e1.2 = e2.2

/-- The network answers a file GET with status 200 and exactly the
declared number of bytes. -/
def netOK (net : String → Response) (a : Action) : Bool :=
  match a.fileOf with
  | none => true
  | some (_, fi) =>
    match fi.url with
    | none => true
    | some u => decide (net u = Response.resp 200 fi.size)

/-- Is the action an unconditional synthetic HTML write
(non-empty page body or assignment description)? -/
def synPred : Action → Bool
  | .writeSyn _ body => body != ""
  | _ => false

/-- How many synthetic HTML writes a run performs (each is counted into
`stats["files_downloaded"]` on every run). -/
def countSyn (acts : List Action) : Nat := (acts.filter synPred).length

/-! ## The vector-store upload phase (file_index_downloader.py:736-852) -/

/-- One course's record in `vector_stores_mapping.json`:
`{vector_store_id, files: [{path, file_id}]}`. -/
structure Entry where
  vsId : String
  files : List (String × String)
deriving DecidableEq

/-- The persisted mapping, keyed by course folder name. -/
abbrev Mapping := List (String × Entry)

def lookupM (m : Mapping) (c : String) : Option Entry :=
  (m.find? (fun e => e.1 == c)).map (fun e => e.2)

/-- `'\\' → '/'` path normalization (file_index_downloader.py:757,764). -/
def normalizePath (p : String) : String :=
  ⟨p.data.map (fun c => if c = '\\' then '/' else c)⟩

/-- The first path segment: which course folder a relative path is under. -/
def topSeg (p : String) : String := ⟨p.data.takeWhile (fun c => c != '/')⟩

/-- Whether the path lies inside a directory (course folders are the
directories of the download root). -/
def inCourseDir (p : String) : Bool := p.data.contains '/'

/-- The normalized already-uploaded path set of a course
(file_index_downloader.py:752-758). -/
def uploadedSetOf (existing : Mapping) (c : String) : List String :=
  match lookupM existing c with
  | none => []
  | some e => e.files.map (fun f => normalizePath f.1)

/-- `files_to_upload` for one course folder (file_index_downloader.py:
761-769): each mirrored file under the folder that is eligible and not yet
recorded. -/
def eligibleNew (fs : FS) (existing : Mapping) (c : String) : List (String × Nat) :=
  fs.filter (fun pr =>
    inCourseDir pr.1 && (topSeg pr.1 == c) && canUploadToVectorStore pr.1 pr.2
      && !((uploadedSetOf existing c).contains (normalizePath pr.1)))

/-- The course folders enumerated by `DOWNLOAD_ROOT.iterdir()`
(file_index_downloader.py:746-747): non-hidden directories. -/
def courseFoldersOf (fs : FS) : List String :=
  (fs.filterMap (fun pr =>
    if inCourseDir pr.1 && !(topSeg pr.1).startsWith "." then some (topSeg pr.1)
    else none)).dedup

/-- The mapping entry of a course after its uploads, with every upload
succeeding (file_index_downloader.py:801-837): reuse the existing store id
and keep the already-recorded files, else create a new store; append one
record per uploaded file. -/
def entryAfterUpload (existing : Mapping) (c : String) (toUp : List (String × Nat)) :
    Entry :=
  match lookupM existing c with
  | some e => ⟨e.vsId, e.files ++ toUp.map (fun pr => (pr.1, "file-" ++ pr.1))⟩
  | none => ⟨"vs-" ++ c, toUp.map (fun pr => (pr.1, "file-" ++ pr.1))⟩

/-- `vector_stores_info` as built by the upload loop: one entry per course
folder with at least one file to upload (file_index_downloader.py:771-842). -/
def vectorStoresInfo (fs : FS) (existing : Mapping) : Mapping :=
  (courseFoldersOf fs).filterMap (fun c =>
    if (eligibleNew fs existing c).isEmpty then none
    else some (c, entryAfterUpload existing c (eligibleNew fs existing c)))

/-- The final merge before saving (file_index_downloader.py:844-847):
courses untouched this run keep their previous entry. -/
def mergeMapping (vsi existing : Mapping) : Mapping :=
  vsi ++ existing.filter (fun pr => (lookupM vsi pr.1).isNone)

/-- The whole upload phase: the saved mapping and the number of files
uploaded (the run's `files_uploaded_to_vector_store` counter, with every
upload succeeding). -/
def uploadPhase (fs : FS) (existing : Mapping) : Mapping × Nat :=
  (mergeMapping (vectorStoresInfo fs existing) existing,
   ((courseFoldersOf fs).map (fun c => (eligibleNew fs existing c).length)).sum)

/-! ## Behaviour of download_file -/

lemma downloadFile_url_none (fi : FileInfo) (p c : String) (r : Response)
    (fs : FS) (st : Stats) (h : fi.url = none) :
    downloadFile fi p c r fs st = ⟨false, "无下载链接", fs, st, false⟩ := by
  unfold downloadFile
  split
  · rfl
  · rename_i u heq
    rw [h] at heq
    exact Option.noConfusion heq

lemma downloadFile_skip (fi : FileInfo) (p c : String) (r : Response)
    (fs : FS) (st : Stats) (u : String) (hu : fi.url = some u)
    (h : lookupFS fs p = some fi.size) :
    downloadFile fi p c r fs st
      = ⟨true, "已存在", fs, { st with skipped := st.skipped + 1 }, false⟩ := by
  unfold downloadFile
  split
  · rename_i heq
    rw [hu] at heq
    exact Option.noConfusion heq
  · rw [if_pos h]

lemma requestAndWrite_200 (fi : FileInfo) (p c : String) (len : Nat)
    (fs : FS) (st : Stats) :
    requestAndWrite fi p c (.resp 200 len) fs st
      = .ok (true, "成功", setFS p len fs,
          { st with downloaded := st.downloaded + 1,
                    totalSize := st.totalSize + fi.size }) := rfl

lemma requestAndWrite_403 (fi : FileInfo) (p c : String) (len : Nat)
    (fs : FS) (st : Stats) :
    requestAndWrite fi p c (.resp 403 len) fs st
      = .ok (false, "403 Forbidden (无权访问)", fs,
          { st with inaccessible := st.inaccessible + 1,
                    inaccessibleFiles := st.inaccessibleFiles
                      ++ [⟨c, fi.displayName, fi.id, "403 Forbidden"⟩] }) := rfl

lemma requestAndWrite_exn (fi : FileInfo) (p c : String) (m : String)
    (fs : FS) (st : Stats) :
    requestAndWrite fi p c (.exn m) fs st = .error m := rfl

lemma requestAndWrite_other (fi : FileInfo) (p c : String) (s len : Nat)
    (fs : FS) (st : Stats) (h200 : s ≠ 200) (h403 : s ≠ 403) :
    requestAndWrite fi p c (.resp s len) fs st
      = .ok (false, "HTTP " ++ toString s, fs, st) := by
  unfold requestAndWrite
  split
  · rename_i heq
    exact Response.noConfusion heq
  · rename_i heq
    injection heq with h1 h2
    exact absurd h1 h200
  · rename_i heq
    injection heq with h1 h2
    exact absurd h1 h403
  · rename_i s2 len2 hA hB heq
    injection heq with h3 h4
    subst h3
    rfl

lemma downloadFile_dl (fi : FileInfo) (p c : String) (r : Response)
    (fs : FS) (st : Stats) (u : String) (hu : fi.url = some u)
    (h : lookupFS fs p ≠ some fi.size) :
    downloadFile fi p c r fs st
      = match requestAndWrite fi p c r fs st with
        | .error m => ⟨false, m, fs, st, true⟩
        | .ok (b, m, fs2, st2) => ⟨b, m, fs2, st2, true⟩ := by
  unfold downloadFile
  split
  · rename_i heq
    rw [hu] at heq
    exact Option.noConfusion heq
  · rw [if_neg h]

lemma downloadFile_200 (fi : FileInfo) (p c : String) (len : Nat)
    (fs : FS) (st : Stats) (u : String) (hu : fi.url = some u)
    (h : lookupFS fs p ≠ some fi.size) :
    downloadFile fi p c (.resp 200 len) fs st
      = ⟨true, "成功", setFS p len fs,
          { st with downloaded := st.downloaded + 1,
                    totalSize := st.totalSize + fi.size }, true⟩ := by
  rw [downloadFile_dl fi p c _ fs st u hu h, requestAndWrite_200]

lemma downloadFile_403 (fi : FileInfo) (p c : String) (len : Nat)
    (fs : FS) (st : Stats) (u : String) (hu : fi.url = some u)
    (h : lookupFS fs p ≠ some fi.size) :
    downloadFile fi p c (.resp 403 len) fs st
      = ⟨false, "403 Forbidden (无权访问)", fs,
          { st with inaccessible := st.inaccessible + 1,
                    inaccessibleFiles := st.inaccessibleFiles
                      ++ [⟨c, fi.displayName, fi.id, "403 Forbidden"⟩] }, true⟩ := by
  rw [downloadFile_dl fi p c _ fs st u hu h, requestAndWrite_403]

lemma downloadFile_exn (fi : FileInfo) (p c : String) (m : String)
    (fs : FS) (st : Stats) (u : String) (hu : fi.url = some u)
    (h : lookupFS fs p ≠ some fi.size) :
    downloadFile fi p c (.exn m) fs st = ⟨false, m, fs, st, true⟩ := by
  rw [downloadFile_dl fi p c _ fs st u hu h, requestAndWrite_exn]

lemma downloadFile_other (fi : FileInfo) (p c : String) (s len : Nat)
    (fs : FS) (st : Stats) (u : String) (hu : fi.url = some u)
    (h : lookupFS fs p ≠ some fi.size) (h200 : s ≠ 200) (h403 : s ≠ 403) :
    downloadFile fi p c (.resp s len) fs st
      = ⟨false, "HTTP " ++ toString s, fs, st, true⟩ := by
  rw [downloadFile_dl fi p c _ fs st u hu h, requestAndWrite_other fi p c s len fs st h200 h403]

/-- `download_file` only ever writes at its own target path. -/
lemma downloadFile_fs_cases (fi : FileInfo) (p c : String) (r : Response)
    (fs : FS) (st : Stats) :
    (downloadFile fi p c r fs st).fs = fs
    ∨ ∃ len, (downloadFile fi p c r fs st).fs = setFS p len fs := by
  cases hu : fi.url with
  | none => rw [downloadFile_url_none fi p c r fs st hu]; left; rfl
  | some u =>
    by_cases h : lookupFS fs p = some fi.size
    · rw [downloadFile_skip fi p c r fs st u hu h]; left; rfl
    · rw [downloadFile_dl fi p c r fs st u hu h]
      cases r with
      | exn m => rw [requestAndWrite_exn]; left; rfl
      | resp s len =>
        by_cases h200 : s = 200
        · subst h200
          rw [requestAndWrite_200]
          right
          exact ⟨len, rfl⟩
        · by_cases h403 : s = 403
          · subst h403
            rw [requestAndWrite_403]
            left
            rfl
          · rw [requestAndWrite_other fi p c s len fs st h200 h403]
            left
            rfl

/-- The course and download-target context of a download action. -/
def Action.dlCtx : Action → Option (String × String × FileInfo)
  | .dlFileItem c _ _ p fi => some (c, p, fi)
  | .dlEmbedded c p fi => some (c, p, fi)
  | .dlAttachment c _ _ p fi => some (c, p, fi)
  | .dlFilesArea c _ p fi => some (c, p, fi)
  | .writeSyn _ _ => none
  | .noFileInfo _ _ _ => none

lemma step_fst_of_dlCtx (net : String → Response) (fs : FS) (st : Stats)
    (a : Action) (c p : String) (fi : FileInfo) (h : a.dlCtx = some (c, p, fi)) :
    (step net (fs, st) a).1 = (downloadFile fi p c (netFor net fi) fs st).fs := by
  cases a <;> simp only [Action.dlCtx, Option.some.injEq, Prod.mk.injEq,
    reduceCtorEq] at h
  all_goals obtain ⟨rfl, rfl, rfl⟩ := h
  all_goals simp only [step]
  all_goals (split <;> rfl)

lemma step_downloaded_of_dlCtx (net : String → Response) (fs : FS) (st : Stats)
    (a : Action) (c p : String) (fi : FileInfo) (h : a.dlCtx = some (c, p, fi)) :
    (step net (fs, st) a).2.downloaded
      = (downloadFile fi p c (netFor net fi) fs st).stats.downloaded := by
  cases a <;> simp only [Action.dlCtx, Option.some.injEq, Prod.mk.injEq,
    reduceCtorEq] at h
  all_goals obtain ⟨rfl, rfl, rfl⟩ := h
  all_goals simp only [step]
  all_goals (split <;> rfl)

/-! ## Step and run lemmas -/

/-- All intended writes of `l` are already on disk with their sizes. -/
def covered (fs : FS) (l : List (String × Nat)) : Prop :=
  ∀ e ∈ l, lookupFS fs e.1 = some e.2

lemma emitsOf_cons (a : Action) (acts : List Action) :
    emitsOf (a :: acts) = (actionEmit a).toList ++ emitsOf acts := by
  cases h : actionEmit a <;> simp [emitsOf, List.filterMap_cons, h]

lemma functionalEmits_mono {l l2 : List (String × Nat)} (hsub : l2 ⊆ l)
    (h : functionalEmits l) : functionalEmits l2 :=
  fun e1 h1 e2 h2 => h e1 (hsub h1) e2 (hsub h2)

lemma actionEmit_dlCtx_some (a : Action) (c p : String) (fi : FileInfo)
    (h : a.dlCtx = some (c, p, fi)) :
    actionEmit a = if fi.url.isSome then some (p, fi.size) else none := by
  cases a <;> simp only [Action.dlCtx, Option.some.injEq, Prod.mk.injEq,
    reduceCtorEq] at h
  all_goals obtain ⟨rfl, rfl, rfl⟩ := h
  all_goals rfl

lemma step_lookup_other (net : String → Response) (fs : FS) (st : Stats)
    (a : Action) (q : String) (hq : ∀ e ∈ (actionEmit a).toList, e.1 ≠ q) :
    lookupFS (step net (fs, st) a).1 q = lookupFS fs q := by
  cases ha : a.dlCtx with
  | some ctx =>
    obtain ⟨c, p, fi⟩ := ctx
    rw [step_fst_of_dlCtx net fs st a c p fi ha]
    cases hu : fi.url with
    | none =>
      rw [downloadFile_url_none fi p c _ fs st hu]
    | some u =>
      have hpq : p ≠ q := by
        have := hq (p, fi.size)
        simp [actionEmit_dlCtx_some a c p fi ha, hu] at this
        exact this
      rcases downloadFile_fs_cases fi p c (netFor net fi) fs st with hcase | ⟨len, hcase⟩
      · rw [hcase]
      · rw [hcase, lookupFS_setFS, if_neg (fun h2 => hpq h2.symm)]
  | none =>
    cases a <;> simp only [Action.dlCtx, reduceCtorEq] at ha
    all_goals clear ha
    · -- writeSyn
      rename_i p body
      by_cases hb : body = ""
      · simp [step, hb]
      · have hpq : p ≠ q := by
          have := hq (p, body.length)
          simp [actionEmit, hb] at this
          exact this
        simp only [step, if_neg hb]
        rw [lookupFS_setFS, if_neg (fun h2 => hpq h2.symm)]
    · -- noFileInfo
      rfl

lemma step_covered_self (net : String → Response) (fs : FS) (st : Stats)
    (a : Action) (hnet : netOK net a = true) :
    ∀ e ∈ (actionEmit a).toList, lookupFS (step net (fs, st) a).1 e.1 = some e.2 := by
  intro e he
  cases ha : a.dlCtx with
  | some ctx =>
    obtain ⟨c, p, fi⟩ := ctx
    rw [step_fst_of_dlCtx net fs st a c p fi ha]
    cases hu : fi.url with
    | none =>
      rw [actionEmit_dlCtx_some a c p fi ha, hu] at he
      simp at he
    | some u =>
      rw [actionEmit_dlCtx_some a c p fi ha, hu] at he
      simp only [Option.isSome_some, if_true, Option.toList_some, List.mem_singleton] at he
      subst he
      have hfo : a.fileOf = some (p, fi) := by
        cases a <;> simp only [Action.dlCtx, Option.some.injEq, Prod.mk.injEq,
          reduceCtorEq] at ha
        all_goals obtain ⟨rfl, rfl, rfl⟩ := ha
        all_goals rfl
      have hresp : net u = Response.resp 200 fi.size := by
        have hnet2 := hnet
        simp only [netOK, hfo, hu] at hnet2
        simpa using hnet2
      have hnf : netFor net fi = Response.resp 200 fi.size := by
        simp only [netFor, hu]
        exact hresp
      by_cases hskip : lookupFS fs p = some fi.size
      · rw [downloadFile_skip fi p c _ fs st u hu hskip]
        exact hskip
      · rw [hnf, downloadFile_200 fi p c fi.size fs st u hu hskip]
        simp [lookupFS_setFS]
  | none =>
    cases a <;> simp only [Action.dlCtx, reduceCtorEq] at ha
    all_goals clear ha
    · -- writeSyn
      rename_i p body
      by_cases hb : body = ""
      · simp [actionEmit, hb] at he
      · simp only [actionEmit, if_neg hb, Option.toList_some, List.mem_singleton] at he
        subst he
        simp only [step, if_neg hb]
        simp [lookupFS_setFS]
    · -- noFileInfo
      simp [actionEmit] at he

lemma step_of_covered (net : String → Response) (fs : FS) (st : Stats)
    (a : Action) (hcov : ∀ e ∈ (actionEmit a).toList, lookupFS fs e.1 = some e.2) :
    (∀ q, lookupFS (step net (fs, st) a).1 q = lookupFS fs q)
    ∧ (step net (fs, st) a).2.downloaded
        = st.downloaded + (if synPred a then 1 else 0)
    ∧ ((keysFS fs).Nodup → ((step net (fs, st) a).1).Perm fs) := by
  cases ha : a.dlCtx with
  | some ctx =>
    obtain ⟨c, p, fi⟩ := ctx
    have hsyn : synPred a = false := by
      cases a <;> simp only [Action.dlCtx, reduceCtorEq] at ha
      all_goals rfl
    cases hu : fi.url with
    | none =>
      have hdf := downloadFile_url_none fi p c (netFor net fi) fs st hu
      refine ⟨?_, ?_, ?_⟩
      · intro q
        rw [step_fst_of_dlCtx net fs st a c p fi ha, hdf]
      · rw [step_downloaded_of_dlCtx net fs st a c p fi ha, hdf, hsyn]
        simp
      · intro _
        rw [step_fst_of_dlCtx net fs st a c p fi ha, hdf]
    | some u =>
      have hskip : lookupFS fs p = some fi.size := by
        have := hcov (p, fi.size)
        simp [actionEmit_dlCtx_some a c p fi ha, hu] at this
        exact this
      have hdf := downloadFile_skip fi p c (netFor net fi) fs st u hu hskip
      refine ⟨?_, ?_, ?_⟩
      · intro q
        rw [step_fst_of_dlCtx net fs st a c p fi ha, hdf]
      · rw [step_downloaded_of_dlCtx net fs st a c p fi ha, hdf, hsyn]
        simp
      · intro _
        rw [step_fst_of_dlCtx net fs st a c p fi ha, hdf]
  | none =>
    cases a <;> simp only [Action.dlCtx, reduceCtorEq] at ha
    all_goals clear ha
    · -- writeSyn
      rename_i p body
      by_cases hb : body = ""
      · refine ⟨?_, ?_, ?_⟩
        · intro q
          simp [step, hb]
        · simp [step, hb, synPred]
        · intro _
          simp [step, hb]
      · have hlk : lookupFS fs p = some body.length := by
          have := hcov (p, body.length)
          simp [actionEmit, hb] at this
          exact this
        refine ⟨?_, ?_, ?_⟩
        · intro q
          simp only [step, if_neg hb]
          rw [lookupFS_setFS]
          by_cases hq : q = p
          · subst hq
            rw [if_pos rfl, hlk]
          · rw [if_neg hq]
        · simp [step, if_neg hb, synPred, hb]
        · intro hnd
          simp only [step, if_neg hb]
          exact setFS_perm p body.length fs hnd hlk
    · -- noFileInfo
      refine ⟨fun q => rfl, by simp [step, synPred], fun _ => List.Perm.refl _⟩

lemma step_keys_nodup (net : String → Response) (fs : FS) (st : Stats)
    (a : Action) (h : (keysFS fs).Nodup) :
    (keysFS (step net (fs, st) a).1).Nodup := by
  cases ha : a.dlCtx with
  | some ctx =>
    obtain ⟨c, p, fi⟩ := ctx
    rw [step_fst_of_dlCtx net fs st a c p fi ha]
    rcases downloadFile_fs_cases fi p c (netFor net fi) fs st with hcase | ⟨len, hcase⟩
    · rwa [hcase]
    · rw [hcase]
      exact keysFS_nodup_setFS p len fs h
  | none =>
    cases a <;> simp only [Action.dlCtx, reduceCtorEq] at ha
    all_goals clear ha
    · rename_i p body
      by_cases hb : body = ""
      · simpa [step, hb] using h
      · simp only [step, if_neg hb]
        exact keysFS_nodup_setFS p body.length fs h
    · exact h

lemma countSyn_cons (a : Action) (acts : List Action) :
    countSyn (a :: acts) = (if synPred a then 1 else 0) + countSyn acts := by
  unfold countSyn
  rw [List.filter_cons]
  by_cases h : synPred a
  · simp [h]
    omega
  · simp [h]

lemma run_of_covered (net : String → Response) (acts : List Action) :
    ∀ (fs : FS) (st : Stats),
      functionalEmits (emitsOf acts) → covered fs (emitsOf acts) →
      (∀ q, lookupFS (acts.foldl (step net) (fs, st)).1 q = lookupFS fs q)
      ∧ (acts.foldl (step net) (fs, st)).2.downloaded = st.downloaded + countSyn acts
      ∧ ((keysFS fs).Nodup → ((acts.foldl (step net) (fs, st)).1).Perm fs) := by
  induction acts with
  | nil =>
    intro fs st _ _
    exact ⟨fun q => rfl, by simp [countSyn], fun _ => List.Perm.refl _⟩
  | cons a as ih =>
    intro fs st hfun hcov
    have hcova : ∀ e ∈ (actionEmit a).toList, lookupFS fs e.1 = some e.2 := by
      intro e he
      exact hcov e (by rw [emitsOf_cons]; exact List.mem_append_left _ he)
    obtain ⟨hlook1, hdl1, hperm1⟩ := step_of_covered net fs st a hcova
    have hsub : emitsOf as ⊆ emitsOf (a :: as) := by
      rw [emitsOf_cons]
      exact List.subset_append_right _ _
    have hfun2 : functionalEmits (emitsOf as) := functionalEmits_mono hsub hfun
    have hcov2 : covered (step net (fs, st) a).1 (emitsOf as) := by
      intro e he
      rw [hlook1 e.1]
      exact hcov e (hsub he)
    have hfold : (a :: as).foldl (step net) (fs, st)
        = as.foldl (step net) ((step net (fs, st) a).1, (step net (fs, st) a).2) := by
      rw [List.foldl_cons]
    obtain ⟨h2look, h2dl, h2perm⟩ :=
      ih (step net (fs, st) a).1 (step net (fs, st) a).2 hfun2 hcov2
    refine ⟨?_, ?_, ?_⟩
    · intro q
      rw [hfold, h2look q, hlook1 q]
    · rw [hfold, h2dl, hdl1, countSyn_cons]
      omega
    · intro hnd
      rw [hfold]
      exact List.Perm.trans (h2perm (step_keys_nodup net fs st a hnd)) (hperm1 hnd)

lemma run_lookup_other (net : String → Response) (acts : List Action) :
    ∀ (fs : FS) (st : Stats) (q : String),
      (∀ e ∈ emitsOf acts, e.1 ≠ q) →
      lookupFS (acts.foldl (step net) (fs, st)).1 q = lookupFS fs q := by
  induction acts with
  | nil => intro fs st q _; rfl
  | cons a as ih =>
    intro fs st q hq
    have hqa : ∀ e ∈ (actionEmit a).toList, e.1 ≠ q := by
      intro e he
      exact hq e (by rw [emitsOf_cons]; exact List.mem_append_left _ he)
    have hqs : ∀ e ∈ emitsOf as, e.1 ≠ q := by
      intro e he
      exact hq e (by rw [emitsOf_cons]; exact List.mem_append_right _ he)
    rw [List.foldl_cons]
    have := ih (step net (fs, st) a).1 (step net (fs, st) a).2 q hqs
    rw [this, step_lookup_other net fs st a q hqa]

lemma run_keys_nodup (net : String → Response) (acts : List Action) :
    ∀ (fs : FS) (st : Stats), (keysFS fs).Nodup →
      (keysFS (acts.foldl (step net) (fs, st)).1).Nodup := by
  induction acts with
  | nil => intro fs st h; exact h
  | cons a as ih =>
    intro fs st h
    rw [List.foldl_cons]
    exact ih _ _ (step_keys_nodup net fs st a h)

lemma run_covers (net : String → Response) (acts : List Action) :
    ∀ (fs : FS) (st : Stats),
      functionalEmits (emitsOf acts) → (∀ a ∈ acts, netOK net a = true) →
      covered (acts.foldl (step net) (fs, st)).1 (emitsOf acts) := by
  induction acts with
  | nil => intro fs st _ _ e he; simp [emitsOf] at he
  | cons a as ih =>
    intro fs st hfun hnet e he
    have hsub : emitsOf as ⊆ emitsOf (a :: as) := by
      rw [emitsOf_cons]
      exact List.subset_append_right _ _
    have hfun2 : functionalEmits (emitsOf as) := functionalEmits_mono hsub hfun
    have hnet2 : ∀ b ∈ as, netOK net b = true :=
      fun b hb => hnet b (List.mem_cons_of_mem a hb)
    rw [emitsOf_cons] at he
    rw [List.foldl_cons]
    rcases List.mem_append.mp he with hhead | htail
    · by_cases hin : ∃ e2 ∈ emitsOf as, e2.1 = e.1
      · obtain ⟨e2, he2, heq⟩ := hin
        have h2 := ih (step net (fs, st) a).1 (step net (fs, st) a).2 hfun2 hnet2 e2 he2
        have hv : e.2 = e2.2 := by
          refine hfun e (by rw [emitsOf_cons]; exact List.mem_append_left _ hhead)
            e2 (by rw [emitsOf_cons]; exact List.mem_append_right _ he2) heq.symm
        rw [← heq, h2, hv]
      · push_neg at hin
        have hself := step_covered_self net fs st a (hnet a (List.mem_cons_self a as)) e hhead
        have hother := run_lookup_other net as (step net (fs, st) a).1
          (step net (fs, st) a).2 e.1 (fun e2 he2 => hin e2 he2)
        rw [hother, hself]
    · exact ih (step net (fs, st) a).1 (step net (fs, st) a).2 hfun2 hnet2 e htail

/-! ## Upload phase lemmas -/

lemma lookupM_mergeMapping_some (vsi existing : Mapping) (c : String) (e : Entry)
    (h : lookupM vsi c = some e) :
    lookupM (mergeMapping vsi existing) c = some e := by
  unfold lookupM at h ⊢
  unfold mergeMapping
  rw [List.find?_append]
  cases hf : vsi.find? (fun pr => pr.1 == c) with
  | none => rw [hf] at h; exact Option.noConfusion h
  | some pr =>
    rw [hf] at h
    simp only [Option.or]
    exact h

lemma lookupM_mergeMapping_none (vsi existing : Mapping) (c : String)
    (h : lookupM vsi c = none) :
    lookupM (mergeMapping vsi existing) c = lookupM existing c := by
  unfold lookupM at h ⊢
  unfold mergeMapping
  rw [List.find?_append]
  cases hf : vsi.find? (fun pr => pr.1 == c) with
  | some pr => rw [hf] at h; exact Option.noConfusion h
  | none =>
    simp only [Option.none_or]
    congr 1
    refine find?_filter_of_imp existing _ _ (fun x hx => ?_)
    have hxc : x.1 = c := by simpa using hx
    rw [hxc]
    unfold lookupM
    rw [hf]
    rfl

lemma find?_filterMap_keyed (cs : List String) (g : String → Option (String × Entry))
    (hg : ∀ x pr, g x = some pr → pr.1 = x) (c : String) :
    ((cs.filterMap g).find? (fun pr => pr.1 == c)) = if c ∈ cs then g c else none := by
  induction cs with
  | nil => simp
  | cons x xs ih =>
    cases hgx : g x with
    | none =>
      rw [List.filterMap_cons_none hgx, ih]
      by_cases hcx : c = x
      · subst hcx
        simp [hgx]
      · simp [List.mem_cons, hcx]
    | some pr =>
      have hpr : pr.1 = x := hg x pr hgx
      rw [List.filterMap_cons_some hgx]
      by_cases hcx : c = x
      · subst hcx
        rw [List.find?_cons_of_pos _ (by simp [hpr])]
        simp [hgx]
      · rw [List.find?_cons_of_neg _ (by
          simp only [beq_eq_false_iff_ne, ne_eq, hpr, Bool.not_eq_true]
          exact fun h2 => hcx h2.symm)]
        rw [ih]
        simp [List.mem_cons, hcx]

lemma lookupM_vectorStoresInfo (fs : FS) (existing : Mapping) (c : String) :
    lookupM (vectorStoresInfo fs existing) c
      = if c ∈ courseFoldersOf fs ∧ (eligibleNew fs existing c) ≠ []
        then some (entryAfterUpload existing c (eligibleNew fs existing c))
        else none := by
  unfold lookupM vectorStoresInfo
  rw [find?_filterMap_keyed _ _ (fun x pr h => by
    by_cases hx : (eligibleNew fs existing x).isEmpty
    · rw [if_pos hx] at h
      exact Option.noConfusion h
    · rw [if_neg hx] at h
      injection h with h2
      rw [← h2])]
  by_cases hmem : c ∈ courseFoldersOf fs
  · rw [if_pos hmem]
    by_cases hemp : (eligibleNew fs existing c).isEmpty
    · rw [if_pos hemp, if_neg]
      · rfl
      · rw [List.isEmpty_iff] at hemp
        exact fun h2 => h2.2 hemp
    · rw [if_neg hemp, if_pos]
      · rfl
      · rw [List.isEmpty_iff] at hemp
        exact ⟨hmem, hemp⟩
  · rw [if_neg hmem, if_neg (fun h2 => hmem h2.1)]
    rfl

lemma uploadPhase_count_zero (fs : FS) (existing : Mapping)
    (h : ∀ c ∈ courseFoldersOf fs, eligibleNew fs existing c = []) :
    (uploadPhase fs existing).2 = 0 := by
  unfold uploadPhase
  refine List.sum_eq_zero (fun x hx => ?_)
  obtain ⟨c, hc, hcx⟩ := List.mem_map.mp hx
  rw [← hcx, h c hc]
  rfl

/-- After the upload phase, every mirrored file that is eligible and lies
in an enumerated course folder is recorded (normalized) in that course's
mapping entry. -/
lemma coverage_after_upload (fs : FS) (existing : Mapping) (c : String)
    (hc : c ∈ courseFoldersOf fs) (pr : String × Nat) (hpr : pr ∈ fs)
    (h1 : inCourseDir pr.1 = true) (h2 : topSeg pr.1 = c)
    (h3 : canUploadToVectorStore pr.1 pr.2 = true) :
    (uploadedSetOf (uploadPhase fs existing).1 c).contains (normalizePath pr.1) = true := by
  by_cases hel : eligibleNew fs existing c = []
  · have hcont : (uploadedSetOf existing c).contains (normalizePath pr.1) = true := by
      cases hb : (uploadedSetOf existing c).contains (normalizePath pr.1) with
      | true => rfl
      | false =>
        exfalso
        have hall := List.filter_eq_nil_iff.mp hel pr hpr
        rw [h1, h2, h3, hb] at hall
        simp at hall
    have hnone : lookupM (vectorStoresInfo fs existing) c = none := by
      rw [lookupM_vectorStoresInfo, if_neg (fun h4 => h4.2 hel)]
    have : lookupM (uploadPhase fs existing).1 c = lookupM existing c :=
      lookupM_mergeMapping_none _ existing c hnone
    unfold uploadedSetOf
    rw [this]
    exact hcont
  · have hsome : lookupM (vectorStoresInfo fs existing) c
        = some (entryAfterUpload existing c (eligibleNew fs existing c)) := by
      rw [lookupM_vectorStoresInfo, if_pos ⟨hc, hel⟩]
    have hm : lookupM (uploadPhase fs existing).1 c
        = some (entryAfterUpload existing c (eligibleNew fs existing c)) :=
      lookupM_mergeMapping_some _ existing c _ hsome
    unfold uploadedSetOf
    rw [hm]
    by_cases hcont : (uploadedSetOf existing c).contains (normalizePath pr.1) = true
    · -- already recorded before: the old files are kept in the new entry
      cases hex : lookupM existing c with
      | none =>
        unfold uploadedSetOf at hcont
        rw [hex] at hcont
        simp at hcont
      | some e =>
        unfold uploadedSetOf at hcont
        rw [hex] at hcont
        unfold entryAfterUpload
        rw [hex]
        rw [List.elem_iff] at hcont ⊢
        simp only [List.mem_map] at hcont ⊢
        obtain ⟨f, hf, hfeq⟩ := hcont
        exact ⟨f, List.mem_append_left _ hf, hfeq⟩
    · -- newly uploaded this run: pr passes the files_to_upload filter
      have hcontf : (uploadedSetOf existing c).contains (normalizePath pr.1) = false := by
        cases hb : (uploadedSetOf existing c).contains (normalizePath pr.1) with
        | true => exact absurd hb hcont
        | false => rfl
      have hmem : pr ∈ eligibleNew fs existing c := by
        unfold eligibleNew
        rw [List.mem_filter]
        refine ⟨hpr, ?_⟩
        rw [h1, h2, h3, hcontf]
        simp
      unfold entryAfterUpload
      cases hex : lookupM existing c with
      | none =>
        rw [List.elem_iff]
        simp only [List.map_map, List.mem_map, Function.comp]
        exact ⟨pr, hmem, rfl⟩
      | some e =>
        rw [List.elem_iff]
        simp only [List.map_append, List.map_map, List.mem_append, List.mem_map,
          Function.comp]
        exact Or.inr ⟨pr, hmem, rfl⟩

/-! ## Claim theorems -/

/-- C9 (counterexample): `sanitize_filename` truncates to 200 characters
after stripping, so an input of 199 `a`s, a dot, and 50 more `a`s yields an
output that ends in a dot — the claim that the result never ends with a
space or a dot is false. Moreover the course folder path component embeds
the raw course code, so a course code containing `/` puts an illegal
character into a path component. -/
theorem sanitizeFilename_trailing_dot_after_truncation :
    (sanitizeFilename ⟨List.replicate 199 'a' ++ '.' :: List.replicate 50 'a'⟩).data.getLast?
        = some '.'
    ∧ stripChar '.' = true
    ∧ '/' ∈ (courseFolderOf ⟨1, "C", "a/b"⟩).data
    ∧ illegalChar '/' = true := by
  refine ⟨by decide, by decide, by decide, by decide⟩

/-- C9 (amended): `sanitize_filename` always returns a non-empty string of
at most 200 characters that contains none of `<>:"/\|?*`, does not begin
with a space or a dot, and — whenever the stripped name needed no
truncation — does not end with a space or a dot either (truncation can
re-expose a trailing space or dot). -/
theorem sanitizeFilename_spec (s : String) :
    sanitizeFilename s ≠ ""
    ∧ (sanitizeFilename s).data.length ≤ 200
    ∧ (∀ c ∈ (sanitizeFilename s).data, illegalChar c = false)
    ∧ (∀ c, (sanitizeFilename s).data.head? = some c → stripChar c = false)
    ∧ ((sanitizeStripped s.data).length ≤ 200 →
        ∀ c, (sanitizeFilename s).data.getLast? = some c → stripChar c = false) := by
  refine ⟨?_, ?_, ?_, ?_, ?_⟩
  · intro h
    exact sanitizeList_ne_nil s.data (congrArg String.data h)
  · exact sanitizeList_length_le s.data
  · exact sanitizeList_no_illegal s.data
  · exact sanitizeList_head_ok s.data
  · exact fun hlen => sanitizeList_getLast_ok_of_short s.data hlen

/-- C9 (witness): the amended claim evaluated at `"ab"`. -/
theorem sanitizeFilename_spec_witness :
    sanitizeFilename "ab" ≠ ""
    ∧ (∀ c, (sanitizeFilename "ab").data.getLast? = some c → stripChar c = false) := by
  have h := sanitizeFilename_spec "ab"
  exact ⟨h.1, h.2.2.2.2 (by decide)⟩

/-- C4 (counterexample): `fetch_all_pages` does not stop at a page that
yields zero elements — if the empty page carries a `next` link, the
following page's elements are still fetched, so the stated stop condition
"a page yields zero elements" is false. -/
theorem fetchAllPages_continues_after_empty_page :
    fetchAllPages [PageResp.ok ([] : List Nat) true, PageResp.ok [1, 2] false] = [1, 2]
    ∧ ([1, 2] : List Nat) ≠ [] := by
  exact ⟨rfl, by decide⟩

/-- C4 (amended): `fetch_all_pages` returns the concatenation of the page
payloads in server order with no re-ordering or deduplication; it stops
when a page carries no `next` link; and on a non-success status or a raised
transport exception it terminates early, returning every element fetched
from the earlier pages. (A zero-element page with a `next` link does not
stop it.) -/
theorem fetchAllPages_spec (α : Type) (ds : List (List α)) (dlast : List α)
    (s : Nat) (m : String) (rest : List (PageResp α)) :
    fetchAllPages (ds.map (fun d => PageResp.ok d true) ++ [PageResp.ok dlast false])
        = ds.flatten ++ dlast
    ∧ fetchAllPages (ds.map (fun d => PageResp.ok d true) ++ PageResp.httpErr s :: rest)
        = ds.flatten
    ∧ fetchAllPages (ds.map (fun d => PageResp.ok d true) ++ PageResp.exn m :: rest)
        = ds.flatten := by
  refine ⟨?_, ?_, ?_⟩
  · rw [fetchAllPages_ok_chain]
    simp [fetchAllPages]
  · rw [fetchAllPages_ok_chain]
    simp [fetchAllPages]
  · rw [fetchAllPages_ok_chain]
    simp [fetchAllPages]

/-- C2 (counterexample): with remote set `R = {"c::f"}`, indexed set
`I = ∅` and inaccessible set `A = {"c::f"}`, the computed
`missing = (R − I) − A` is empty, so `missing ∪ (R ∩ I) = ∅ ≠ R`: the
claimed identity `missing ∪ (R ∩ I) = R` fails whenever an inaccessible
remote key is not indexed. -/
theorem missingFiles_union_counterexample :
    missingFiles {"c::f"} ∅ {"c::f"} ∪ (({"c::f"} : Finset String) ∩ (∅ : Finset String))
      ≠ ({"c::f"} : Finset String) := by
  decide

/-- C2 (amended): for the computed sets of `check_index_status`,
`missing ∪ (R ∩ I) = R \ (Inaccessible \ I)` (so the original equality
`missing ∪ (R ∩ I) = R` holds exactly when every inaccessible remote key is
indexed), `missing` is disjoint from `R ∩ I`, and no inaccessible key ever
lies in `missing`. -/
theorem missingFiles_partition_spec (R I A : Finset String) :
    missingFiles R I A ∪ (R ∩ I) = R \ (A \ I)
    ∧ missingFiles R I A ∩ (R ∩ I) = ∅
    ∧ (∀ k ∈ A, k ∉ missingFiles R I A)
    ∧ (A ∩ R ⊆ I → missingFiles R I A ∪ (R ∩ I) = R) := by
  refine ⟨?_, ?_, ?_, ?_⟩
  · ext x
    simp only [missingFiles, Finset.mem_union, Finset.mem_sdiff, Finset.mem_inter]
    tauto
  · ext x
    simp only [missingFiles, Finset.mem_inter, Finset.mem_sdiff, Finset.not_mem_empty,
      iff_false]
    tauto
  · intro k hk
    simp only [missingFiles, Finset.mem_sdiff]
    tauto
  · intro hsub
    ext x
    simp only [missingFiles, Finset.mem_union, Finset.mem_sdiff, Finset.mem_inter]
    constructor
    · tauto
    · intro hx
      by_cases hxI : x ∈ I
      · tauto
      · by_cases hxA : x ∈ A
        · exact absurd (hsub (Finset.mem_inter.mpr ⟨hxA, hx⟩)) hxI
        · tauto

/-- C2 (witness): the amended claim evaluated at concrete sets
`R = {"c::f", "c::g"}`, `I = {"c::g"}`, `A = {"c::f"}`. -/
theorem missingFiles_partition_spec_witness :
    (∀ k ∈ ({"c::f"} : Finset String), k ∉ missingFiles {"c::f", "c::g"} {"c::g"} {"c::f"})
    ∧ missingFiles {"c::f", "c::g"} {"c::g"} {"c::f"}
        ∩ (({"c::f", "c::g"} : Finset String) ∩ ({"c::g"} : Finset String)) = ∅ := by
  have h := missingFiles_partition_spec {"c::f", "c::g"} {"c::g"} {"c::f"}
  exact ⟨h.2.2.1, h.2.1⟩

/-- C8: a local file is eligible for upload to the index store iff its
extension, compared case-insensitively, is one of the eleven supported
document extensions and its size is at most 512 MiB (536870912 bytes);
and every file the upload driver selects (`files_to_upload`) satisfies the
eligibility test, so an ineligible file is never submitted. -/
theorem canUploadToVectorStore_spec :
    (∀ (p : String) (sz : Nat),
      canUploadToVectorStore p sz = true ↔
        ((lowerStr (pathSuffix p) = ".pdf" ∨ lowerStr (pathSuffix p) = ".txt"
          ∨ lowerStr (pathSuffix p) = ".md" ∨ lowerStr (pathSuffix p) = ".doc"
          ∨ lowerStr (pathSuffix p) = ".docx" ∨ lowerStr (pathSuffix p) = ".ppt"
          ∨ lowerStr (pathSuffix p) = ".pptx" ∨ lowerStr (pathSuffix p) = ".xls"
          ∨ lowerStr (pathSuffix p) = ".xlsx" ∨ lowerStr (pathSuffix p) = ".json"
          ∨ lowerStr (pathSuffix p) = ".csv")
          ∧ sz ≤ 536870912))
    ∧ (∀ (fs : FS) (existing : Mapping) (c : String) (pr : String × Nat),
        pr ∈ eligibleNew fs existing c → canUploadToVectorStore pr.1 pr.2 = true) := by
  constructor
  · intro p sz
    unfold canUploadToVectorStore SUPPORTED_EXTENSIONS MAX_FILE_SIZE
    rw [Bool.and_eq_true, List.elem_iff]
    simp only [List.mem_cons, List.not_mem_nil, or_false, decide_eq_true_eq]
  · intro fs existing c pr hpr
    unfold eligibleNew at hpr
    have h2 := List.of_mem_filter hpr
    simp only [Bool.and_eq_true] at h2
    exact h2.1.2

/-- C8 (witness): the eligibility test and the upload filter evaluated
concretely: `A/f.pdf` of size 10 is eligible and selected. -/
theorem canUploadToVectorStore_spec_witness :
    canUploadToVectorStore "A/f.pdf" 10 = true := by
  have h := canUploadToVectorStore_spec
  exact h.2 [("A/f.pdf", 10)] [] "A" ("A/f.pdf", 10) (by decide)

/-- C3: given a declared remote size and a download URL, if a local file
already exists at the target path with byte length equal to the declared
size, `download_file` returns already-present (`已存在`) without touching
the network or the file; otherwise it issues the request, and a 200
response overwrites the target path with the response body. -/
theorem downloadFile_size_check_spec (fi : FileInfo) (p c : String) (r : Response)
    (fs : FS) (st : Stats) (u : String) (hu : fi.url = some u) :
    (lookupFS fs p = some fi.size →
      downloadFile fi p c r fs st
        = ⟨true, "已存在", fs, { st with skipped := st.skipped + 1 }, false⟩)
    ∧ (lookupFS fs p ≠ some fi.size →
        (downloadFile fi p c r fs st).requested = true
        ∧ ∀ len, r = Response.resp 200 len →
            (downloadFile fi p c r fs st).fs = setFS p len fs) := by
  constructor
  · intro h
    exact downloadFile_skip fi p c r fs st u hu h
  · intro h
    constructor
    · rw [downloadFile_dl fi p c r fs st u hu h]
      cases hreq : requestAndWrite fi p c r fs st with
      | error m => rfl
      | ok x =>
        obtain ⟨b, m, fs2, st2⟩ := x
        rfl
    · intro len hlen
      subst hlen
      rw [downloadFile_200 fi p c len fs st u hu h]

/-- C3 (witness): both branches evaluated concretely — a matching local
copy is skipped with no request; a size mismatch issues the request and a
200 response overwrites. -/
theorem downloadFile_size_check_spec_witness :
    downloadFile ⟨"1", "f.pdf", some "u", 5⟩ "A/f.pdf" "A" (Response.exn "boom")
        [("A/f.pdf", 5)] initStats
      = ⟨true, "已存在", [("A/f.pdf", 5)], { initStats with skipped := 1 }, false⟩
    ∧ (downloadFile ⟨"1", "f.pdf", some "u", 5⟩ "A/f.pdf" "A" (Response.resp 200 7)
        [("A/f.pdf", 9)] initStats).fs = setFS "A/f.pdf" 7 [("A/f.pdf", 9)] := by
  constructor
  · exact (downloadFile_size_check_spec ⟨"1", "f.pdf", some "u", 5⟩ "A/f.pdf" "A"
      (Response.exn "boom") [("A/f.pdf", 5)] initStats "u" rfl).1 (by decide)
  · exact ((downloadFile_size_check_spec ⟨"1", "f.pdf", some "u", 5⟩ "A/f.pdf" "A"
      (Response.resp 200 7) [("A/f.pdf", 9)] initStats "u" rfl).2 (by decide)).2 7 rfl

/-- C10: a single download attempt is total at its interface — the body of
the `try:` block returns `Except.error e` when the request raises, and
`download_file` catches it into a `(False, str(e))` result with the file
system and stats untouched; and the enclosing loops fold over their items
unconditionally, so processing a list of items always continues past a
failing one to the remaining items. -/
theorem downloadFile_total_spec (fi : FileInfo) (p c m : String)
    (fs : FS) (st : Stats) (u : String) (net : String → Response)
    (hu : fi.url = some u) (hmiss : lookupFS fs p ≠ some fi.size) :
    requestAndWrite fi p c (Response.exn m) fs st = Except.error m
    ∧ downloadFile fi p c (Response.exn m) fs st = ⟨false, m, fs, st, true⟩
    ∧ (∀ (acts1 acts2 : List Action) (σ : FS × Stats),
        (acts1 ++ acts2).foldl (step net) σ
          = acts2.foldl (step net) (acts1.foldl (step net) σ)) := by
  refine ⟨rfl, ?_, ?_⟩
  · exact downloadFile_exn fi p c m fs st u hu hmiss
  · intro acts1 acts2 σ
    rw [List.foldl_append]

/-- C10 (witness): the exception-catching branch evaluated concretely. -/
theorem downloadFile_total_spec_witness :
    downloadFile ⟨"1", "f.pdf", some "u", 5⟩ "A/f.pdf" "A" (Response.exn "boom")
        [] initStats
      = ⟨false, "boom", [], initStats, true⟩ := by
  exact (downloadFile_total_spec ⟨"1", "f.pdf", some "u", 5⟩ "A/f.pdf" "A" "boom"
    [] initStats "u" (fun _ => Response.exn "") rfl (by decide)).2.1

/-! ## Persistence of the mapping file (file_index_downloader.py:849-852) -/

/-- A primitive file operation of the save path: `open(path, 'w')`
truncates in place; a subsequent write appends the serialized payload. -/
inductive FileOp where
  | openTrunc (path : String)
  | writeChunk (path : String) (data : String)
deriving DecidableEq

/-- Apply one operation to the disk (path ↦ file contents). -/
def applyOp (disk : String → Option String) : FileOp → (String → Option String)
  | .openTrunc p => fun q => if q = p then some "" else disk q
  | .writeChunk p d => fun q => if q = p then some ((disk q).getD "" ++ d) else disk q

/-- The operation sequence of `main`'s mapping save
(file_index_downloader.py:850-852): a truncating open of the target path
itself followed by the dump — no temp file, no rename. -/
def saveMappingOps (path content : String) : List FileOp :=
  [.openTrunc path, .writeChunk path content]

/-- C7: the mapping save is NOT atomic. Running all of its operations
replaces `OLD` by `NEW`, but the prefix cut right after the truncating
`open(path, 'w')` leaves the file empty — neither the prior contents nor
the replacement — so an interruption mid-flight violates the claimed
atomicity. -/
theorem saveMapping_not_atomic :
    ((saveMappingOps "file_index/vector_stores_mapping.json" "NEW").foldl applyOp
        (fun q => if q = "file_index/vector_stores_mapping.json" then some "OLD" else none))
        "file_index/vector_stores_mapping.json" = some "NEW"
    ∧ (((saveMappingOps "file_index/vector_stores_mapping.json" "NEW").take 1).foldl applyOp
        (fun q => if q = "file_index/vector_stores_mapping.json" then some "OLD" else none))
        "file_index/vector_stores_mapping.json" = some ""
    ∧ ("" : String) ≠ "OLD"
    ∧ ("" : String) ≠ "NEW" := by
  refine ⟨by decide, by decide, by decide, by decide⟩

/-- The remote state of the C5 counterexample: one course `C` with one
module `M` containing page `T` whose body embeds file `/files/7`; the
files-area endpoint returns an empty list. -/
def remoteC5 : Remote :=
  { courses := [⟨1, "C", ""⟩]
    modulesOf := fun _ => [⟨"M", [Item.page "p" "T"]⟩]
    fileTable := fun fid => if fid = "7" then some ⟨"7", "g.pdf", some "u", 5⟩ else none
    pageTable := fun _ _ => some "/files/7"
    assignTable := fun _ _ => none
    courseFiles := fun _ => some [] }

/-- The network of the C5 counterexample: every file GET returns HTTP 500. -/
def netC5 : String → Response := fun _ => Response.resp 500 0

/-- C5 (counterexample): when the download of a file embedded in a page
body fails with HTTP 500 (a non-403, non-success status), the run's error
list stays empty — no error record is appended for embedded-link download
failures (file_index_downloader.py:461-470 has no `else` branch) — even
though the file is absent from local storage; the page body itself was
still written (downloaded = 1). -/
theorem embedded_failure_not_recorded :
    (runDownload netC5 remoteC5 [] initStats).2.errors = []
    ∧ lookupFS (runDownload netC5 remoteC5 [] initStats).1 "C/Modules/M/g.pdf" = none
    ∧ (runDownload netC5 remoteC5 [] initStats).2.downloaded = 1 := by
  refine ⟨by decide, by decide, by decide⟩

/-- C5 (amended): for a file download with a URL and no matching local
copy. On HTTP 403 the result is inaccessible: the record
`{course, file_name, file_id, "403 Forbidden"}` is appended to the run's
inaccessible-file list in every context — File-item, assignment-attachment,
Files-area and embedded-link downloads alike — and for the first three the
403 failure is additionally appended to the error list; the item is not
retried within the run. On any other non-success HTTP status, and likewise
on a raised transport exception, the result is failed with no automatic
retry, and an error record is appended to the run's error list for
File-item (`HTTP <status>` / the exception text), assignment-attachment
(prefixed `附件下载失败: `) and Files-area (no module field) downloads —
but NOT for embedded-link downloads, whose failures leave the error list
untouched. In every case the fold over the remaining items continues. -/
theorem download_failure_recording_spec (net : String → Response) (fs : FS)
    (st : Stats) (c m f p : String) (fi : FileInfo) (u : String)
    (hu : fi.url = some u) (hmiss : lookupFS fs p ≠ some fi.size) :
    (∀ len, net u = Response.resp 403 len →
      step net (fs, st) (Action.dlFileItem c m f p fi)
        = (fs, { st with
            inaccessible := st.inaccessible + 1,
            inaccessibleFiles := st.inaccessibleFiles
              ++ [⟨c, fi.displayName, fi.id, "403 Forbidden"⟩],
            errors := st.errors ++ [⟨c, some m, f, "403 Forbidden (无权访问)"⟩] })
      ∧ step net (fs, st) (Action.dlAttachment c m f p fi)
        = (fs, { st with
            inaccessible := st.inaccessible + 1,
            inaccessibleFiles := st.inaccessibleFiles
              ++ [⟨c, fi.displayName, fi.id, "403 Forbidden"⟩],
            errors := st.errors
              ++ [⟨c, some m, f, "附件下载失败: 403 Forbidden (无权访问)"⟩] })
      ∧ step net (fs, st) (Action.dlFilesArea c f p fi)
        = (fs, { st with
            inaccessible := st.inaccessible + 1,
            inaccessibleFiles := st.inaccessibleFiles
              ++ [⟨c, fi.displayName, fi.id, "403 Forbidden"⟩],
            errors := st.errors ++ [⟨c, none, f, "403 Forbidden (无权访问)"⟩] })
      ∧ step net (fs, st) (Action.dlEmbedded c p fi)
        = (fs, { st with
            inaccessible := st.inaccessible + 1,
            inaccessibleFiles := st.inaccessibleFiles
              ++ [⟨c, fi.displayName, fi.id, "403 Forbidden"⟩] }))
    ∧ (∀ s len, net u = Response.resp s len → s ≠ 200 → s ≠ 403 →
      step net (fs, st) (Action.dlFileItem c m f p fi)
        = (fs, { st with errors := st.errors ++ [⟨c, some m, f, "HTTP " ++ toString s⟩] })
      ∧ step net (fs, st) (Action.dlAttachment c m f p fi)
        = (fs, { st with errors := st.errors
            ++ [⟨c, some m, f, "附件下载失败: " ++ ("HTTP " ++ toString s)⟩] })
      ∧ step net (fs, st) (Action.dlFilesArea c f p fi)
        = (fs, { st with errors := st.errors ++ [⟨c, none, f, "HTTP " ++ toString s⟩] })
      ∧ step net (fs, st) (Action.dlEmbedded c p fi) = (fs, st))
    ∧ (∀ em, net u = Response.exn em →
      step net (fs, st) (Action.dlFileItem c m f p fi)
        = (fs, { st with errors := st.errors ++ [⟨c, some m, f, em⟩] })
      ∧ step net (fs, st) (Action.dlAttachment c m f p fi)
        = (fs, { st with errors := st.errors ++ [⟨c, some m, f, "附件下载失败: " ++ em⟩] })
      ∧ step net (fs, st) (Action.dlFilesArea c f p fi)
        = (fs, { st with errors := st.errors ++ [⟨c, none, f, em⟩] })
      ∧ step net (fs, st) (Action.dlEmbedded c p fi) = (fs, st))
    ∧ (∀ (acts1 acts2 : List Action) (σ : FS × Stats),
        (acts1 ++ acts2).foldl (step net) σ
          = acts2.foldl (step net) (acts1.foldl (step net) σ)) := by
  have hnf : netFor net fi = net u := by simp only [netFor, hu]
  refine ⟨?_, ?_, ?_, ?_⟩
  · intro len hnet
    have hdf := downloadFile_403 fi p c len fs st u hu hmiss
    refine ⟨?_, ?_, ?_, ?_⟩
    all_goals simp only [step, hnf, hnet, hdf]
    all_goals rfl
  · intro s len hnet h200 h403
    have hdf := downloadFile_other fi p c s len fs st u hu hmiss h200 h403
    refine ⟨?_, ?_, ?_, ?_⟩
    all_goals simp only [step, hnf, hnet, hdf]
    all_goals rfl
  · intro em hnet
    have hdf := downloadFile_exn fi p c em fs st u hu hmiss
    refine ⟨?_, ?_, ?_, ?_⟩
    all_goals simp only [step, hnf, hnet, hdf]
    all_goals rfl
  · intro acts1 acts2 σ
    rw [List.foldl_append]

/-- C5 (witness): the amended claim evaluated concretely — the 403 branch
of a File-item download appends both the inaccessible record and the error
record, and a transport exception on a Files-area download appends a
module-less error record. -/
theorem download_failure_recording_spec_witness :
    step (fun _ => Response.resp 403 0) ([], initStats)
        (Action.dlFileItem "C" "M" "f.pdf" "C/Modules/M/f.pdf" ⟨"9", "f.pdf", some "u", 5⟩)
      = ([], { initStats with
          inaccessible := 1,
          inaccessibleFiles := [⟨"C", "f.pdf", "9", "403 Forbidden"⟩],
          errors := [⟨"C", some "M", "f.pdf", "403 Forbidden (无权访问)"⟩] })
    ∧ step (fun _ => Response.exn "boom") ([], initStats)
        (Action.dlFilesArea "C" "f.pdf" "C/Files/f.pdf" ⟨"9", "f.pdf", some "u", 5⟩)
      = ([], { initStats with errors := [⟨"C", none, "f.pdf", "boom"⟩] }) := by
  constructor
  · exact ((download_failure_recording_spec (fun _ => Response.resp 403 0) [] initStats
      "C" "M" "f.pdf" "C/Modules/M/f.pdf" ⟨"9", "f.pdf", some "u", 5⟩ "u" rfl
      (by decide)).1 0 rfl).1
  · exact ((download_failure_recording_spec (fun _ => Response.exn "boom") [] initStats
      "C" "M" "f.pdf" "C/Files/f.pdf" ⟨"9", "f.pdf", some "u", 5⟩ "u" rfl
      (by decide)).2.2.1 "boom" rfl).2.2.1

/-- C6: if course A's entry is in the loaded mapping and the run uploads no
new files for A (its `files_to_upload` is empty), then after the final
merge-and-save A's entry is unchanged; and in general the merged mapping
looks up to the freshly recorded entry when one exists and to the prior
entry otherwise — the union of fresh entries and untouched prior entries. -/
theorem mergeAndSave_preserves_untouched (fs : FS) (existing : Mapping)
    (A : String) (e : Entry)
    (hA : lookupM existing A = some e)
    (hempty : eligibleNew fs existing A = []) :
    lookupM (uploadPhase fs existing).1 A = some e
    ∧ (∀ (vsi ex : Mapping) (c : String),
        lookupM (mergeMapping vsi ex) c
          = match lookupM vsi c with
            | some e2 => some e2
            | none => lookupM ex c) := by
  constructor
  · have hnone : lookupM (vectorStoresInfo fs existing) A = none := by
      rw [lookupM_vectorStoresInfo, if_neg (fun h => h.2 hempty)]
    have hm : lookupM (uploadPhase fs existing).1 A = lookupM existing A :=
      lookupM_mergeMapping_none _ existing A hnone
    rw [hm, hA]
  · intro vsi ex c
    cases h : lookupM vsi c with
    | some e2 => exact lookupM_mergeMapping_some vsi ex c e2 h
    | none => exact lookupM_mergeMapping_none vsi ex c h

/-- C6 (witness): run 2 uploads only course B's new file; course A's entry
survives the merge unchanged. -/
theorem mergeAndSave_preserves_untouched_witness :
    lookupM (uploadPhase [("A/f.pdf", 10), ("B/g.pdf", 5)]
        [("A", ⟨"vs1", [("A/f.pdf", "id1")]⟩)]).1 "A"
      = some ⟨"vs1", [("A/f.pdf", "id1")]⟩ := by
  exact (mergeAndSave_preserves_untouched [("A/f.pdf", 10), ("B/g.pdf", 5)]
    [("A", ⟨"vs1", [("A/f.pdf", "id1")]⟩)] "A" ⟨"vs1", [("A/f.pdf", "id1")]⟩
    (by decide) (by decide)).1

instance (l : List (String × Nat)) : Decidable (functionalEmits l) := by
  unfold functionalEmits
  infer_instance

lemma courseFoldersOf_mem_of_perm (fsA fsB : FS) (hperm : fsA.Perm fsB) (c : String)
    (hc : c ∈ courseFoldersOf fsA) : c ∈ courseFoldersOf fsB := by
  unfold courseFoldersOf at hc ⊢
  rw [List.mem_dedup] at hc ⊢
  rw [List.mem_filterMap] at hc ⊢
  obtain ⟨pr, hpr, hpr2⟩ := hc
  exact ⟨pr, hperm.mem_iff.mp hpr, hpr2⟩

/-- The remote state of the C1 counterexample: one course `C` with one
module `M` containing a page `T` with non-empty body and nothing else. -/
def remoteC1 : Remote :=
  { courses := [⟨1, "C", ""⟩]
    modulesOf := fun _ => [⟨"M", [Item.page "p" "T"]⟩]
    fileTable := fun _ => none
    pageTable := fun _ _ => some "x"
    assignTable := fun _ _ => none
    courseFiles := fun _ => some [] }

/-- The network of the C1 counterexample (never consulted: the walk has no
file download). -/
def netC1 : String → Response := fun _ => Response.exn ""

/-- C1 (counterexample): with no remote changes, the second run still
counts one download — the page body is re-written unconditionally
(file_index_downloader.py:446-457 has no existence/size check for
synthetic HTML), so the claim that the second run's downloaded counter is
zero is false. -/
theorem second_run_downloads_page_again :
    (runDownload netC1 remoteC1 (runDownload netC1 remoteC1 [] initStats).1
        initStats).2.downloaded = 1
    ∧ (1 : Nat) ≠ 0 := by
  exact ⟨by decide, by decide⟩

/-- C1 (amended): run the download phase twice against the same remote
state, where distinct writes never collide on a path with different sizes,
the network serves every file GET of the walk with status 200 and the
declared byte count, and the initial mirror has no duplicate paths. Then on
the second run every file download is classified already-present by the
existing-file/size check, so the second run's downloaded counter equals the
number of non-empty synthetic page/assignment HTML bodies (zero exactly
when there are none — synthetic bodies are re-written and re-counted every
run); and, with run 1's upload phase having recorded every eligible file
(all uploads succeeding), the second run's upload phase uploads zero
files. -/
theorem secondRun_spec (remote : Remote) (net : String → Response) (fs0 : FS)
    (existing0 : Mapping)
    (hfun : functionalEmits (emitsOf (walkRemote remote)))
    (hnet : ∀ a ∈ walkRemote remote, netOK net a = true)
    (hnodup : (keysFS fs0).Nodup) :
    (runDownload net remote (runDownload net remote fs0 initStats).1
        initStats).2.downloaded = countSyn (walkRemote remote)
    ∧ (uploadPhase
        (runDownload net remote (runDownload net remote fs0 initStats).1 initStats).1
        (uploadPhase (runDownload net remote fs0 initStats).1 existing0).1).2 = 0 := by
  have hcov1 : covered ((walkRemote remote).foldl (step net) (fs0, initStats)).1
      (emitsOf (walkRemote remote)) :=
    run_covers net (walkRemote remote) fs0 initStats hfun hnet
  obtain ⟨hlook, hdl, hperm⟩ :=
    run_of_covered net (walkRemote remote)
      ((walkRemote remote).foldl (step net) (fs0, initStats)).1 initStats hfun hcov1
  have hnodup1 : (keysFS ((walkRemote remote).foldl (step net) (fs0, initStats)).1).Nodup :=
    run_keys_nodup net (walkRemote remote) fs0 initStats hnodup
  constructor
  · show ((walkRemote remote).foldl (step net)
      (((walkRemote remote).foldl (step net) (fs0, initStats)).1, initStats)).2.downloaded
        = countSyn (walkRemote remote)
    rw [hdl]
    simp [initStats]
  · have hperm2 := hperm hnodup1
    apply uploadPhase_count_zero
    intro c hc
    unfold eligibleNew
    refine List.filter_eq_nil_iff.mpr (fun pr hpr => ?_)
    cases hb1 : inCourseDir pr.1 with
    | false => simp [hb1]
    | true =>
      cases hb2 : (topSeg pr.1 == c) with
      | false => simp [hb2]
      | true =>
        cases hb3 : canUploadToVectorStore pr.1 pr.2 with
        | false => simp [hb3]
        | true =>
          have hprfs1 : pr ∈ ((walkRemote remote).foldl (step net) (fs0, initStats)).1 :=
            hperm2.mem_iff.mp hpr
          have hc1 : c ∈ courseFoldersOf
              ((walkRemote remote).foldl (step net) (fs0, initStats)).1 :=
            courseFoldersOf_mem_of_perm _ _ hperm2 c hc
          have hcontains := coverage_after_upload
            ((walkRemote remote).foldl (step net) (fs0, initStats)).1 existing0 c hc1
            pr hprfs1 hb1 (by simpa using hb2) hb3
          simp [hb1, hb2, hb3]
          exact List.elem_iff.mp hcontains

/-- C1 (witness): the amended claim evaluated at the concrete one-page
remote state with an empty initial mirror and empty mapping: the second
run's downloaded counter equals the synthetic-write count (here 1) and the
second run uploads nothing. -/
theorem secondRun_spec_witness :
    (runDownload netC1 remoteC1 (runDownload netC1 remoteC1 [] initStats).1
        initStats).2.downloaded = countSyn (walkRemote remoteC1)
    ∧ (uploadPhase
        (runDownload netC1 remoteC1 (runDownload netC1 remoteC1 [] initStats).1
          initStats).1
        (uploadPhase (runDownload netC1 remoteC1 [] initStats).1 []).1).2 = 0 := by
  exact secondRun_spec remoteC1 netC1 [] [] (by decide) (by decide) (by decide)

end Canvas
